import Mathlib

/-!
Verification of the bfint interpreter pipeline: a shallow embedding of the
scanner (`token.rs`), the compiler (`program.rs`), the virtual machine
(`virtualmachine.rs`) and the interpreter (`interpreter.rs`), together with
theorems settling the specification claims about them.

Conventions of the embedding:
* Rust `u8` cell values and `usize` indices are `Nat`; where the Rust
  operation can overflow, the embedding models the behaviour of the checked
  (default, debug-profile) build: a panic is an explicit `Except.error`
  carrying a `"panic: ..."` message.
* Fallible operations return `Except String _`; the error payloads are the
  exact strings built by the Rust code.
* The byte source (`dyn Read`) is a list of byte values; a `read` into a
  one-byte buffer takes the head when the list is nonempty and leaves the
  buffer untouched (zero bytes read) when it is empty.  The byte sink
  (`dyn Write`) is a list of byte values that written bytes are appended to.
-/

deriving instance DecidableEq for Except

namespace Bfint

/- ================= token.rs ================= -/

/-- The `TokenKind` from token.rs: the eight primitive symbols.  Note the source
names `<` `LeftBrace` and `>` `RightBrace`. -/
inductive TokenKind where
  | Plus
  | Minus
  | LeftBrace
  | RightBrace
  | Dot
  | Comma
  | LeftBracket
  | RightBracket
deriving DecidableEq, Repr

/-- The `Token` from token.rs: a kind plus its 1-based row and column. -/
structure Token where
  kind : TokenKind
  row : Nat
  col : Nat
deriving DecidableEq, Repr

/-- The `TokenKind::from_char`: classify a character, or fail with the
`Invalid character` message (the Rust `format!` interpolates the char). -/
def TokenKind.from_char (c : Char) : Except String TokenKind :=
  match c with
  | '+' => .ok TokenKind.Plus
  | '-' => .ok TokenKind.Minus
  | '<' => .ok TokenKind.LeftBrace
  | '>' => .ok TokenKind.RightBrace
  | '.' => .ok TokenKind.Dot
  | ',' => .ok TokenKind.Comma
  | '[' => .ok TokenKind.LeftBracket
  | ']' => .ok TokenKind.RightBracket
  | _ => .error ("Invalid character: \x27" ++ c.toString ++ "\x27")

/-- The `Token::from_char`: build a token at a row/column from a character. -/
def Token.from_char (c : Char) (row col : Nat) : Except String Token :=
  (TokenKind.from_char c).map (fun k => { kind := k, row := row, col := col })

/-- One line of `Tokenizer`s iteration (token.rs, `impl Iterator ... next`):
`col` is `current_char_n + 1`, i.e. the 1-based position of the next
character of the line.  Whitespace is skipped, a `#` abandons the rest of
the line (the Rust code calls `read_next_line`), any other character yields
`Token::from_char` — including an `Err` for an invalid character, after
which iteration continues.  The Rust `char::is_whitespace` is Unicode-aware;
`Char.isWhitespace` covers the ASCII subset, which is the only part these
sources exercise. -/
def tokenizeLine (row : Nat) : Nat → List Char → List (Except String Token)
  | _, [] => []
  | col, c :: cs =>
    if c.isWhitespace then tokenizeLine row (col + 1) cs
    else if c = '#' then []
    else Token.from_char c row col :: tokenizeLine row (col + 1) cs

/-- The full token stream of a source split into lines (`Tokenizer::read`
followed by iterating `next`): `row` is `current_line_n`, the number of
lines already read, so the first line scanned gets row `row + 1`. -/
def tokenize : Nat → List (List Char) → List (Except String Token)
  | _, [] => []
  | row, l :: ls => tokenizeLine (row + 1) 1 l ++ tokenize (row + 1) ls

/-- The `BufRead::read_line` splitting: each chunk runs up to and including a
newline character; a final chunk without a newline is kept; empty input
yields no lines. -/
def splitLinesAux : List Char → List Char → List (List Char)
  | [], acc => if acc.isEmpty then [] else [acc]
  | c :: cs, acc =>
    if c = '\n' then (acc ++ ['\n']) :: splitLinesAux cs []
    else splitLinesAux cs (acc ++ [c])

/-- Scanning a whole source string, as the Rust `Tokenizer` does over a
`BufReader`: split into `read_line` chunks, then tokenize line by line. -/
def tokenizeString (s : String) : List (Except String Token) :=
  tokenize 0 (splitLinesAux s.toList [])

/- ================= program.rs ================= -/

/-- The `Instruction` from program.rs: the closed instruction variant; `JZ`/`JNZ`
carry an absolute target index into the instruction sequence. -/
inductive Instruction where
  | IncPtr
  | DecPtr
  | IncData
  | DecData
  | Input
  | Output
  | JZ (target : Nat)
  | JNZ (target : Nat)
  | Exit
deriving DecidableEq, Repr

/-- One iteration of the loop body of `Program::compile`: `i` is the
enumeration index of the token, `instructions` the output so far,
`open_bracket_stack` the pending `[` indices (head = most recently pushed,
matching the Rust `Vec` push/pop end).  A `]` with an empty stack fails
with the Rust error string; otherwise the popped placeholder is patched in
place to `JZ (i + 1)` and a `JNZ` back to the opening index is appended. -/
def compileStep (i : Nat) (instructions : List Instruction) (open_bracket_stack : List Nat)
    (t : Token) : Except String (List Instruction × List Nat) :=
  match t.kind with
  | .RightBrace => .ok (instructions ++ [.IncPtr], open_bracket_stack)
  | .LeftBrace => .ok (instructions ++ [.DecPtr], open_bracket_stack)
  | .Plus => .ok (instructions ++ [.IncData], open_bracket_stack)
  | .Minus => .ok (instructions ++ [.DecData], open_bracket_stack)
  | .Dot => .ok (instructions ++ [.Output], open_bracket_stack)
  | .Comma => .ok (instructions ++ [.Input], open_bracket_stack)
  | .LeftBracket => .ok (instructions ++ [.JZ 0], i :: open_bracket_stack)
  | .RightBracket =>
    match open_bracket_stack with
    | open_bracket_pos :: rest =>
      .ok ((instructions.set open_bracket_pos (.JZ (i + 1))) ++ [.JNZ open_bracket_pos], rest)
    | [] => .error "No matching \x27[\x27"

/-- The whole `for (i, token) in ... .enumerate()` loop of
`Program::compile`, returning the instructions and the pending stack. -/
def compileSteps : List Token → Nat → List Instruction → List Nat →
    Except String (List Instruction × List Nat)
  | [], _, instructions, open_bracket_stack => .ok (instructions, open_bracket_stack)
  | t :: ts, i, instructions, open_bracket_stack =>
    match compileStep i instructions open_bracket_stack t with
    | .error e => .error e
    | .ok (instructions2, stack2) => compileSteps ts (i + 1) instructions2 stack2

/-- The `Program::compile` over an already-scanned token sequence: run the loop
from empty state; if brackets are still pending fail with the Rust error
string, otherwise append the trailing `Exit` instruction. -/
def compile (tokens : List Token) : Except String (List Instruction) :=
  match compileSteps tokens 0 [] [] with
  | .error e => .error e
  | .ok (instructions, open_bracket_stack) =>
    if open_bracket_stack.isEmpty then .ok (instructions ++ [.Exit])
    else .error "Unmatched \x27[\x27"

/-- Well-nestedness of the bracket tokens of a sequence, at nesting depth
`d`: the standard Dyck-word check (never close below depth zero, end at the
starting depth). -/
def balancedFrom : List Token → Nat → Bool
  | [], d => d == 0
  | t :: ts, d =>
    match t.kind with
    | .LeftBracket => balancedFrom ts (d + 1)
    | .RightBracket =>
      match d with
      | 0 => false
      | d' + 1 => balancedFrom ts d'
    | _ => balancedFrom ts d

/-- Spec-side notion of a *matched bracket pair* of a token sequence: `o` is
the position of a `[`, `c` the position of the `]` that closes it, i.e. the
tokens strictly between them are themselves well-nested. -/
def matchedPair (ts : List Token) (o c : Nat) : Prop :=
  ∃ A tl S tr B, ts = A ++ tl :: (S ++ tr :: B) ∧
    tl.kind = TokenKind.LeftBracket ∧ tr.kind = TokenKind.RightBracket ∧
    A.length = o ∧ o + 1 + S.length = c ∧ balancedFrom S 0 = true

/-- All jump targets occurring in an instruction list are at most `n`. -/
def targetsLE (instructions : List Instruction) (n : Nat) : Prop :=
  ∀ ins ∈ instructions, ∀ t, (ins = Instruction.JZ t ∨ ins = Instruction.JNZ t) → t ≤ n

/- ================= virtualmachine.rs ================= -/

namespace VM

/-- The `Status` from virtualmachine.rs: only `Idle` and `Running` exist. -/
inductive Status where
  | Idle
  | Running
deriving DecidableEq, Repr

/-- The `MemoryOverflowBehavior` from virtualmachine.rs. -/
inductive MemoryOverflowBehavior where
  | Unchecked
  | Saturate
  | Wrap
deriving DecidableEq, Repr

/-- The `Settings` from virtualmachine.rs; the `dyn Read` input is a byte list,
the `dyn Write` output a byte list that writes are appended to. -/
structure Settings where
  memory_size : Nat
  memory_overflow_behavior : MemoryOverflowBehavior
  input : List Nat
  output : List Nat
deriving DecidableEq, Repr

/-- The `VirtualMachine` from virtualmachine.rs. -/
structure VirtualMachine where
  memory : List Nat
  mp : Nat
  pc : Nat
  status : Status
  settings : Settings
deriving DecidableEq, Repr

/-- The `VirtualMachine::with_settings`: zeroed tape of `memory_size` cells,
pointers at zero, `Idle` status. -/
def with_settings (settings : Settings) : VirtualMachine :=
  { memory := List.replicate settings.memory_size 0
    mp := 0
    pc := 0
    status := Status.Idle
    settings := settings }

/-- The `VirtualMachine::wakeup`: `Idle` becomes `Running`; any other status is
an error and the machine is returned untouched (the Rust method mutates
`&mut self` and returns early on the error path). -/
def wakeup (vm : VirtualMachine) : VirtualMachine × Except String Unit :=
  match vm.status with
  | Status.Idle => ({ vm with status := Status.Running }, .ok ())
  | _ => (vm, .error "Virtual Machine status is not Idle")

/-- The `VirtualMachine::mem_rd`, as an `Option`: `self.memory[self.mp]` panics
when the pointer is out of range. -/
def mem_rd (vm : VirtualMachine) : Option Nat :=
  vm.memory[vm.mp]?

/-- The `VirtualMachine::mem_inc`: `self.memory[self.mp] += 1` on a `u8`.
Under the default (debug) profile this panics when the cell holds 255
instead of wrapping to 0; only a release build wraps. -/
def mem_inc (vm : VirtualMachine) : Except String VirtualMachine :=
  match vm.memory[vm.mp]? with
  | none => .error "panic: index out of bounds"
  | some v =>
    if v + 1 ≥ 256 then .error "panic: attempt to add with overflow"
    else .ok { vm with memory := vm.memory.set vm.mp (v + 1) }

/-- The `VirtualMachine::mem_dec`: `self.memory[self.mp] -= 1` on a `u8`.
Under the default (debug) profile this panics when the cell holds 0
instead of wrapping to 255; only a release build wraps. -/
def mem_dec (vm : VirtualMachine) : Except String VirtualMachine :=
  match vm.memory[vm.mp]? with
  | none => .error "panic: index out of bounds"
  | some v =>
    if v = 0 then .error "panic: attempt to subtract with overflow"
    else .ok { vm with memory := vm.memory.set vm.mp (v - 1) }

/-- The `while ignore_newlines && buffer[0] == b\x27\n\x27` loop of
`VirtualMachine::read_byte`: re-read while the buffer holds a newline.  A
`read` from an exhausted source returns zero bytes and leaves the buffer
unchanged, so if the input runs out while the buffer holds a newline the
Rust loop never terminates; that case is `none`. -/
def skip_newlines : Nat → List Nat → Option (Nat × List Nat)
  | buffer, [] => if buffer = 10 then none else some (buffer, [])
  | buffer, b :: rest => if buffer = 10 then skip_newlines b rest else some (buffer, b :: rest)

/-- The `VirtualMachine::read_byte`: read one byte into a buffer initialised to
`[0u8]` (an exhausted source leaves the 0), optionally skip newline bytes,
then store the byte under the memory pointer (which panics when the pointer
is out of range).  The diverging skip-loop case is an explicit error. -/
def read_byte (vm : VirtualMachine) (ignore_newlines : Bool) : Except String VirtualMachine :=
  let first : Nat × List Nat :=
    match vm.settings.input with
    | [] => (0, [])
    | b :: rest => (b, rest)
  let skipped : Option (Nat × List Nat) :=
    if ignore_newlines then skip_newlines first.1 first.2 else some first
  match skipped with
  | none => .error "diverges: input exhausted while skipping newlines"
  | some (v, rest) =>
    if vm.mp < vm.memory.length then
      .ok { vm with
        memory := vm.memory.set vm.mp v
        settings := { vm.settings with input := rest } }
    else .error "panic: index out of bounds"

/-- The `VirtualMachine::write_byte`: append the cell under the memory pointer
to the output sink (reading the cell panics when the pointer is out of
range). -/
def write_byte (vm : VirtualMachine) : Except String VirtualMachine :=
  match vm.memory[vm.mp]? with
  | none => .error "panic: index out of bounds"
  | some v =>
    .ok { vm with settings := { vm.settings with output := vm.settings.output ++ [v] } }

/-- The `VirtualMachine::inc_mp`: move the pointer forward under the configured
overflow behaviour.  Under `Saturate`, `self.memory.len() - 1` underflows
(debug-profile panic) when the tape is empty. -/
def inc_mp (vm : VirtualMachine) : Except String VirtualMachine :=
  match vm.settings.memory_overflow_behavior with
  | MemoryOverflowBehavior.Unchecked => .ok { vm with mp := vm.mp + 1 }
  | MemoryOverflowBehavior.Saturate =>
    if vm.memory.length = 0 then .error "panic: attempt to subtract with overflow"
    else if vm.mp < vm.memory.length - 1 then .ok { vm with mp := vm.mp + 1 }
    else .ok vm
  | MemoryOverflowBehavior.Wrap =>
    if vm.mp + 1 ≥ vm.memory.length then .ok { vm with mp := 0 }
    else .ok { vm with mp := vm.mp + 1 }

/-- The `VirtualMachine::dec_mp`: move the pointer backward under the configured
overflow behaviour.  Under `Unchecked`, `self.mp -= 1` underflows
(debug-profile panic) at pointer 0; under `Wrap`, `self.memory.len() - 1`
underflows when the tape is empty. -/
def dec_mp (vm : VirtualMachine) : Except String VirtualMachine :=
  match vm.settings.memory_overflow_behavior with
  | MemoryOverflowBehavior.Unchecked =>
    if vm.mp = 0 then .error "panic: attempt to subtract with overflow"
    else .ok { vm with mp := vm.mp - 1 }
  | MemoryOverflowBehavior.Saturate =>
    if vm.mp > 0 then .ok { vm with mp := vm.mp - 1 }
    else .ok vm
  | MemoryOverflowBehavior.Wrap =>
    if vm.mp > 0 then .ok { vm with mp := vm.mp - 1 }
    else if vm.memory.length = 0 then .error "panic: attempt to subtract with overflow"
    else .ok { vm with mp := vm.memory.length - 1 }

/-- Iterated `inc_mp` (the claim about repeated move-pointer-forward). -/
def inc_mp_iter : Nat → VirtualMachine → Except String VirtualMachine
  | 0, vm => .ok vm
  | n + 1, vm =>
    match inc_mp vm with
    | .error e => .error e
    | .ok vm2 => inc_mp_iter n vm2

/-- The `VirtualMachine::execute_instruction`: the Rust method computes
`next_pc = self.pc + 1`, runs the instruction (jumps overwrite `next_pc`,
`Exit` sets the status to `Idle` — there is no `Halted` status), and then
unconditionally assigns `self.pc = next_pc`; a `?`-propagated error (or a
panic, modelled as an error) returns before that assignment.  Here each arm
produces the resulting machine with the program counter already updated. -/
def execute_instruction (vm : VirtualMachine) (instruction : Instruction) :
    Except String VirtualMachine :=
  match instruction with
  | Instruction.IncPtr => (inc_mp vm).map (fun v => { v with pc := vm.pc + 1 })
  | Instruction.DecPtr => (dec_mp vm).map (fun v => { v with pc := vm.pc + 1 })
  | Instruction.IncData => (mem_inc vm).map (fun v => { v with pc := vm.pc + 1 })
  | Instruction.DecData => (mem_dec vm).map (fun v => { v with pc := vm.pc + 1 })
  | Instruction.Output => (write_byte vm).map (fun v => { v with pc := vm.pc + 1 })
  | Instruction.Input => (read_byte vm true).map (fun v => { v with pc := vm.pc + 1 })
  | Instruction.JNZ addr =>
    match mem_rd vm with
    | none => .error "panic: index out of bounds"
    | some v => .ok { vm with pc := if v ≠ 0 then addr else vm.pc + 1 }
  | Instruction.JZ addr =>
    match mem_rd vm with
    | none => .error "panic: index out of bounds"
    | some v => .ok { vm with pc := if v = 0 then addr else vm.pc + 1 }
  | Instruction.Exit => .ok { vm with status := Status.Idle, pc := vm.pc + 1 }

end VM

/- ================= interpreter.rs ================= -/

namespace Interp

/-- The `Environment` from interpreter.rs (tape, memory pointer, program
counter; the I/O handles are not needed for the stepped claims). -/
structure Env where
  memory : List Nat
  mp : Nat
  pc : Nat
deriving DecidableEq, Repr

/-- The `WaitReason` from interpreter.rs. -/
inductive WaitReason where
  | Input
  | Output
deriving DecidableEq, Repr

/-- The `InterpreterStatus` from interpreter.rs: no `Halted` status exists. -/
inductive InterpreterStatus where
  | Idle
  | Running
  | Waiting (reason : WaitReason)
deriving DecidableEq, Repr

/-- The `Interpreter` from interpreter.rs. -/
structure Interpreter where
  program : List Instruction
  env : Env
  status : InterpreterStatus
deriving DecidableEq, Repr

/-- The `Environment::read_byte`: same buffer/skip-newlines behaviour as the
virtual machine version, but the byte is returned instead of stored (the `run`
loop stores it with `mem_wr` when servicing `Waiting(Input)`). -/
def env_read_byte (input : List Nat) (ignore_newlines : Bool) :
    Except String (Nat × List Nat) :=
  let first : Nat × List Nat :=
    match input with
    | [] => (0, [])
    | b :: rest => (b, rest)
  let skipped : Option (Nat × List Nat) :=
    if ignore_newlines then VM.skip_newlines first.1 first.2 else some first
  match skipped with
  | none => .error "diverges: input exhausted while skipping newlines"
  | some p => .ok p

/-- The `Interpreter::step`: refuse unless `Running`; fetch the instruction at
the program counter (`Program::instruction` indexes a `Vec`, panicking out
of range); run it; the Rust method then unconditionally assigns
`self.env.pc = next_pc`, so every arm below carries the updated program
counter — including `Output`/`Input` (which suspend) and `Exit` (which sets
the status to `Idle`).  Cell arithmetic is the debug-profile checked
`+= 1` / `-= 1` on `u8`. -/
def step (it : Interpreter) : Except String Interpreter :=
  if it.status ≠ InterpreterStatus.Running then .error "Interpreter is not running"
  else
    match it.program[it.env.pc]? with
    | none => .error "panic: index out of bounds"
    | some instruction =>
      match instruction with
      | Instruction.IncPtr =>
        .ok { it with env := { it.env with mp := it.env.mp + 1, pc := it.env.pc + 1 } }
      | Instruction.DecPtr =>
        if it.env.mp = 0 then .error "panic: attempt to subtract with overflow"
        else .ok { it with env := { it.env with mp := it.env.mp - 1, pc := it.env.pc + 1 } }
      | Instruction.IncData =>
        match it.env.memory[it.env.mp]? with
        | none => .error "panic: index out of bounds"
        | some v =>
          if v + 1 ≥ 256 then .error "panic: attempt to add with overflow"
          else .ok { it with env :=
            { it.env with memory := it.env.memory.set it.env.mp (v + 1), pc := it.env.pc + 1 } }
      | Instruction.DecData =>
        match it.env.memory[it.env.mp]? with
        | none => .error "panic: index out of bounds"
        | some v =>
          if v = 0 then .error "panic: attempt to subtract with overflow"
          else .ok { it with env :=
            { it.env with memory := it.env.memory.set it.env.mp (v - 1), pc := it.env.pc + 1 } }
      | Instruction.Output =>
        .ok { it with status := InterpreterStatus.Waiting WaitReason.Output
                      env := { it.env with pc := it.env.pc + 1 } }
      | Instruction.Input =>
        .ok { it with status := InterpreterStatus.Waiting WaitReason.Input
                      env := { it.env with pc := it.env.pc + 1 } }
      | Instruction.JNZ addr =>
        match it.env.memory[it.env.mp]? with
        | none => .error "panic: index out of bounds"
        | some v =>
          .ok { it with env := { it.env with pc := if v ≠ 0 then addr else it.env.pc + 1 } }
      | Instruction.JZ addr =>
        match it.env.memory[it.env.mp]? with
        | none => .error "panic: index out of bounds"
        | some v =>
          .ok { it with env := { it.env with pc := if v = 0 then addr else it.env.pc + 1 } }
      | Instruction.Exit =>
        .ok { it with status := InterpreterStatus.Idle
                      env := { it.env with pc := it.env.pc + 1 } }

end Interp

/- ================= concrete machines used in counterexamples and witnesses ================= -/

/-- Settings with a one-cell tape and unchecked pointer moves. -/
def settings1 : VM.Settings :=
  { memory_size := 1, memory_overflow_behavior := VM.MemoryOverflowBehavior.Unchecked
    input := [], output := [] }

/-- A running machine whose single cell holds 255 (reachable by executing
increment-cell 255 times from the zero-initialised machine). -/
def vm255 : VM.VirtualMachine :=
  { memory := [255], mp := 0, pc := 0, status := VM.Status.Running, settings := settings1 }

/-- A running machine whose single cell holds 0 (the initial tape value). -/
def vmZero : VM.VirtualMachine :=
  { memory := [0], mp := 0, pc := 0, status := VM.Status.Running, settings := settings1 }

/-- An idle machine. -/
def vmIdle : VM.VirtualMachine :=
  { memory := [0], mp := 0, pc := 0, status := VM.Status.Idle, settings := settings1 }

/-- A machine with a one-cell tape under the `Saturate` policy. -/
def vmSat : VM.VirtualMachine :=
  { memory := [0], mp := 0, pc := 0, status := VM.Status.Running
    settings := { memory_size := 1, memory_overflow_behavior := VM.MemoryOverflowBehavior.Saturate
                  input := [], output := [] } }

/-- A machine with a three-cell tape under the `Wrap` policy, pointer at 1. -/
def vmWrap : VM.VirtualMachine :=
  { memory := [0, 0, 0], mp := 1, pc := 0, status := VM.Status.Running
    settings := { memory_size := 3, memory_overflow_behavior := VM.MemoryOverflowBehavior.Wrap
                  input := [], output := [] } }

/-- A machine whose input source delivers two newlines and then byte 65. -/
def vmInput : VM.VirtualMachine :=
  { memory := [7], mp := 0, pc := 0, status := VM.Status.Running
    settings := { memory_size := 1, memory_overflow_behavior := VM.MemoryOverflowBehavior.Unchecked
                  input := [10, 10, 65, 66], output := [] } }

/-- A machine whose input source is already exhausted. -/
def vmNoInput : VM.VirtualMachine :=
  { memory := [7], mp := 0, pc := 0, status := VM.Status.Running, settings := settings1 }

/-- The token sequence `[` `]`: the smallest well-nested bracket pair. -/
def tsPair : List Token :=
  [{ kind := TokenKind.LeftBracket, row := 1, col := 1 },
   { kind := TokenKind.RightBracket, row := 1, col := 2 }]

/-- A running interpreter about to execute `Exit`. -/
def itExit : Interp.Interpreter :=
  { program := [Instruction.Exit], env := { memory := [0], mp := 0, pc := 0 }
    status := Interp.InterpreterStatus.Running }

/-- A running interpreter about to execute `Output` (write-output). -/
def itOutput : Interp.Interpreter :=
  { program := [Instruction.Output], env := { memory := [0], mp := 0, pc := 0 }
    status := Interp.InterpreterStatus.Running }

/-- A running interpreter about to execute `Input` (read-input). -/
def itInput : Interp.Interpreter :=
  { program := [Instruction.Input], env := { memory := [0], mp := 0, pc := 0 }
    status := Interp.InterpreterStatus.Running }

/-- A running interpreter about to execute increment-cell on a cell at 255. -/
def itInc255 : Interp.Interpreter :=
  { program := [Instruction.IncData], env := { memory := [255], mp := 0, pc := 0 }
    status := Interp.InterpreterStatus.Running }

/-- A running interpreter about to execute decrement-cell on a cell at 0. -/
def itDec0 : Interp.Interpreter :=
  { program := [Instruction.DecData], env := { memory := [0], mp := 0, pc := 0 }
    status := Interp.InterpreterStatus.Running }

/- ================= helper lemmas ================= -/

/-- A `#` character makes `tokenizeLine` ignore everything after it: the
tokens of `pre ++ '#' :: rest` are exactly the tokens of `pre`. -/
theorem tokenizeLine_hash (pre : List Char) (row : Nat) : ∀ (col : Nat) (rest : List Char),
    tokenizeLine row col (pre ++ '#' :: rest) = tokenizeLine row col pre := by
  induction pre with
  | nil =>
    intro col rest
    simp [tokenizeLine]
  | cons c pre ih =>
    intro col rest
    by_cases hw : c.isWhitespace
    · simp [tokenizeLine, hw, ih]
    · by_cases hc : c = '#'
      · simp [tokenizeLine, hw, hc]
      · simp [tokenizeLine, hw, hc, ih]

/-- Under the `Saturate` policy on a one-cell tape with the pointer at 0,
`inc_mp` is a no-op. -/
theorem inc_mp_saturate_one (vm : VM.VirtualMachine)
    (hb : vm.settings.memory_overflow_behavior = VM.MemoryOverflowBehavior.Saturate)
    (hl : vm.memory.length = 1) (hmp : vm.mp = 0) : VM.inc_mp vm = .ok vm := by
  simp [VM.inc_mp, hb, hl, hmp]

/-- Under the `Wrap` policy with an in-range pointer, `inc_mp` increments
the pointer modulo the tape length. -/
theorem inc_mp_wrap (vm : VM.VirtualMachine)
    (hb : vm.settings.memory_overflow_behavior = VM.MemoryOverflowBehavior.Wrap)
    (h : vm.mp < vm.memory.length) :
    VM.inc_mp vm = .ok { vm with mp := (vm.mp + 1) % vm.memory.length } := by
  simp only [VM.inc_mp, hb]
  by_cases hge : vm.mp + 1 ≥ vm.memory.length
  · have heq : vm.mp + 1 = vm.memory.length := by omega
    simp [hge, heq]
  · have hlt : vm.mp + 1 < vm.memory.length := by omega
    simp [hge, Nat.mod_eq_of_lt hlt]

/-- Iterating `inc_mp` under the `Wrap` policy adds the iteration count to
the pointer modulo the tape length. -/
theorem inc_mp_iter_wrap (k : Nat) : ∀ (vm : VM.VirtualMachine),
    vm.settings.memory_overflow_behavior = VM.MemoryOverflowBehavior.Wrap →
    vm.mp < vm.memory.length →
    VM.inc_mp_iter k vm = .ok { vm with mp := (vm.mp + k) % vm.memory.length } := by
  induction k with
  | zero =>
    intro vm _ h
    simp [VM.inc_mp_iter, Nat.mod_eq_of_lt h]
  | succ n ih =>
    intro vm hb h
    have hpos : 0 < vm.memory.length := Nat.lt_of_le_of_lt (Nat.zero_le _) h
    have hlt : (vm.mp + 1) % vm.memory.length < vm.memory.length := Nat.mod_lt _ hpos
    have step := ih { vm with mp := (vm.mp + 1) % vm.memory.length } hb hlt
    simp only [VM.inc_mp_iter, inc_mp_wrap vm hb h, step]
    have harith : ((vm.mp + 1) % vm.memory.length + n) % vm.memory.length
        = (vm.mp + (n + 1)) % vm.memory.length := by
      rw [Nat.mod_add_mod]
      congr 1
      omega
    rw [harith]

/-- A non-newline byte passes straight through the newline-skipping loop. -/
theorem skip_newlines_not_nl (b : Nat) (rest : List Nat) (hb : b ≠ 10) :
    VM.skip_newlines b rest = some (b, rest) := by
  cases rest <;> simp [VM.skip_newlines, hb]

/-- The newline-skipping loop consumes any run of newline bytes and stops
at the first non-newline byte. -/
theorem skip_newlines_run (j : Nat) : ∀ (b : Nat) (rest : List Nat), b ≠ 10 →
    VM.skip_newlines 10 (List.replicate j 10 ++ b :: rest) = some (b, rest) := by
  induction j with
  | zero =>
    intro b rest hb
    simp [VM.skip_newlines, skip_newlines_not_nl b rest hb]
  | succ n ih =>
    intro b rest hb
    simp [List.replicate_succ, VM.skip_newlines, ih b rest hb]

/-- A token that is neither bracket appends exactly one instruction and
leaves the pending stack unchanged. -/
theorem compileStep_other (i : Nat) (instrs : List Instruction) (st : List Nat) (t : Token)
    (h1 : t.kind ≠ TokenKind.LeftBracket) (h2 : t.kind ≠ TokenKind.RightBracket) :
    ∃ X, compileStep i instrs st t = .ok (instrs ++ [X], st) ∧
      ∀ u, X ≠ Instruction.JZ u ∧ X ≠ Instruction.JNZ u := by
  cases htk : t.kind
  case LeftBracket => exact absurd htk h1
  case RightBracket => exact absurd htk h2
  case Plus => exact ⟨Instruction.IncData, by simp [compileStep, htk], fun u => ⟨nofun, nofun⟩⟩
  case Minus => exact ⟨Instruction.DecData, by simp [compileStep, htk], fun u => ⟨nofun, nofun⟩⟩
  case LeftBrace => exact ⟨Instruction.DecPtr, by simp [compileStep, htk], fun u => ⟨nofun, nofun⟩⟩
  case RightBrace => exact ⟨Instruction.IncPtr, by simp [compileStep, htk], fun u => ⟨nofun, nofun⟩⟩
  case Dot => exact ⟨Instruction.Output, by simp [compileStep, htk], fun u => ⟨nofun, nofun⟩⟩
  case Comma => exact ⟨Instruction.Input, by simp [compileStep, htk], fun u => ⟨nofun, nofun⟩⟩

/-- A token that is neither bracket does not change the nesting depth. -/
theorem balancedFrom_cons_other (t : Token) (ts : List Token) (d : Nat)
    (h1 : t.kind ≠ TokenKind.LeftBracket) (h2 : t.kind ≠ TokenKind.RightBracket) :
    balancedFrom (t :: ts) d = balancedFrom ts d := by
  cases htk : t.kind
  case LeftBracket => exact absurd htk h1
  case RightBracket => exact absurd htk h2
  all_goals simp [balancedFrom, htk]

/-- The compile loop is compositional: a successful run over a prefix
continues over the suffix with the index advanced by the prefix length. -/
theorem compileSteps_append_ok (xs : List Token) :
    ∀ (ys : List Token) (i : Nat) (instrs : List Instruction) (st : List Nat)
      (iX : List Instruction) (sX : List Nat),
    compileSteps xs i instrs st = .ok (iX, sX) →
    compileSteps (xs ++ ys) i instrs st = compileSteps ys (i + xs.length) iX sX := by
  induction xs with
  | nil =>
    intro ys i instrs st iX sX h
    simp only [compileSteps, Except.ok.injEq, Prod.mk.injEq] at h
    obtain ⟨h1, h2⟩ := h
    subst h1
    subst h2
    simp [compileSteps]
  | cons t xs ih =>
    intro ys i instrs st iX sX h
    simp only [compileSteps, List.cons_append] at h ⊢
    cases hstep : compileStep i instrs st t with
    | error e =>
      rw [hstep] at h
      exact absurd h (by simp)
    | ok p =>
      obtain ⟨a, b⟩ := p
      rw [hstep] at h
      have h2 : compileSteps xs (i + 1) a b = .ok (iX, sX) := h
      have harith : i + (t :: xs).length = (i + 1) + xs.length := by
        simp only [List.length_cons]
        omega
      show compileSteps (xs ++ ys) (i + 1) a b = compileSteps ys (i + (t :: xs).length) iX sX
      rw [ih ys (i + 1) a b iX sX h2, harith]

/-- Running the compile loop over a segment that is well-nested relative to
depth `d` (with `pre` the top `d` entries of the stack) succeeds, never
touches the stack below `pre`, extends the instruction list by exactly the
segment length, keeps the (new) pending entries inside the index range of
the segment, and never modifies an instruction below the starting index that is
outside `pre`. -/
theorem compileSteps_balanced (A : List Token) :
    ∀ (d : Nat) (rest : List Token), balancedFrom (A ++ rest) d = true →
    ∀ (pre st : List Nat) (i : Nat) (instrs : List Instruction),
      pre.length = d → instrs.length = i →
      ∃ instrsA preA,
        compileSteps A i instrs (pre ++ st) = .ok (instrsA, preA ++ st) ∧
        instrsA.length = i + A.length ∧
        balancedFrom rest preA.length = true ∧
        (∀ p ∈ preA, p ∈ pre ∨ (i ≤ p ∧ p < i + A.length)) ∧
        (∀ j, j < i → j ∉ pre → instrsA[j]? = instrs[j]?) := by
  induction A with
  | nil =>
    intro d rest hbal pre st i instrs hpre hlen
    refine ⟨instrs, pre, by simp [compileSteps], by simp [hlen], ?_, ?_, ?_⟩
    · rw [hpre]
      simpa using hbal
    · intro p hp
      exact Or.inl hp
    · intro j _ _
      rfl
  | cons t A ih =>
    intro d rest hbal pre st i instrs hpre hlen
    rw [List.cons_append] at hbal
    cases htk : t.kind
    case LeftBracket =>
      simp only [balancedFrom, htk] at hbal
      obtain ⟨iA, pA, e1, e2, e3, e4, e5⟩ :=
        ih (d + 1) rest hbal (i :: pre) st (i + 1) (instrs ++ [.JZ 0])
          (by simp [hpre]) (by simp [hlen])
      refine ⟨iA, pA, ?_, ?_, e3, ?_, ?_⟩
      · rw [show compileSteps (t :: A) i instrs (pre ++ st)
            = compileSteps A (i + 1) (instrs ++ [.JZ 0]) ((i :: pre) ++ st) by
          simp [compileSteps, compileStep, htk]]
        exact e1
      · rw [e2]
        simp only [List.length_cons]
        omega
      · intro p hp
        rcases e4 p hp with hm | ⟨hge, hlt⟩
        · rcases List.mem_cons.1 hm with h | h
          · subst h
            exact Or.inr ⟨Nat.le_refl _, by simp only [List.length_cons]; omega⟩
          · exact Or.inl h
        · exact Or.inr ⟨by omega, by simp only [List.length_cons]; omega⟩
      · intro j hj hnp
        rw [e5 j (by omega) (by
          simp only [List.mem_cons, not_or]
          exact ⟨by omega, hnp⟩)]
        exact List.getElem?_append_left (by omega)
    case RightBracket =>
      simp only [balancedFrom, htk] at hbal
      cases d with
      | zero => simp at hbal
      | succ d' =>
        cases pre with
        | nil => simp at hpre
        | cons p0 pre' =>
          have hpre' : pre'.length = d' := by simpa using hpre
          obtain ⟨iA, pA, e1, e2, e3, e4, e5⟩ :=
            ih d' rest hbal pre' st (i + 1) (instrs.set p0 (.JZ (i + 1)) ++ [.JNZ p0])
              hpre' (by simp [hlen])
          refine ⟨iA, pA, ?_, ?_, e3, ?_, ?_⟩
          · rw [show compileSteps (t :: A) i instrs ((p0 :: pre') ++ st)
                = compileSteps A (i + 1) (instrs.set p0 (.JZ (i + 1)) ++ [.JNZ p0])
                    (pre' ++ st) by
              simp [compileSteps, compileStep, htk]]
            exact e1
          · rw [e2]
            simp only [List.length_cons]
            omega
          · intro p hp
            rcases e4 p hp with hm | ⟨hge, hlt⟩
            · exact Or.inl (List.mem_cons_of_mem p0 hm)
            · exact Or.inr ⟨by omega, by simp only [List.length_cons]; omega⟩
          · intro j hj hnp
            simp only [List.mem_cons, not_or] at hnp
            rw [e5 j (by omega) hnp.2]
            rw [List.getElem?_append_left (by simp only [List.length_set]; omega)]
            exact List.getElem?_set_ne (fun h => hnp.1 h.symm)
    all_goals
      have h1 : t.kind ≠ TokenKind.LeftBracket := by simp [htk]
      have h2 : t.kind ≠ TokenKind.RightBracket := by simp [htk]
      rw [balancedFrom_cons_other t (A ++ rest) d h1 h2] at hbal
      obtain ⟨X, hstep, -⟩ := compileStep_other i instrs (pre ++ st) t h1 h2
      obtain ⟨iA, pA, e1, e2, e3, e4, e5⟩ :=
        ih d rest hbal pre st (i + 1) (instrs ++ [X]) hpre (by simp [hlen])
      refine ⟨iA, pA, ?_, ?_, e3, ?_, ?_⟩
      · rw [show compileSteps (t :: A) i instrs (pre ++ st)
            = compileSteps A (i + 1) (instrs ++ [X]) (pre ++ st) by
          simp [compileSteps, hstep]]
        exact e1
      · rw [e2]
        simp only [List.length_cons]
        omega
      · intro p hp
        rcases e4 p hp with hm | ⟨hge, hlt⟩
        · exact Or.inl hm
        · exact Or.inr ⟨by omega, by simp only [List.length_cons]; omega⟩
      · intro j hj hnp
        rw [e5 j (by omega) hnp]
        exact List.getElem?_append_left (by omega)

/-- A successful compile-loop run never modifies an instruction that sits
below the starting index and is not on the pending stack. -/
theorem compileSteps_untouched (B : List Token) :
    ∀ (i : Nat) (instrs : List Instruction) (st : List Nat)
      (instrs2 : List Instruction) (st2 : List Nat),
    compileSteps B i instrs st = .ok (instrs2, st2) → instrs.length = i →
    ∀ j, j < i → j ∉ st → instrs2[j]? = instrs[j]? := by
  induction B with
  | nil =>
    intro i instrs st instrs2 st2 h hlen j hj hst
    simp only [compileSteps, Except.ok.injEq, Prod.mk.injEq] at h
    rw [← h.1]
  | cons t B ih =>
    intro i instrs st instrs2 st2 h hlen j hj hst
    cases htk : t.kind
    case LeftBracket =>
      simp only [compileSteps, compileStep, htk] at h
      rw [ih (i + 1) _ _ _ _ h (by simp [hlen]) j (by omega) (by
        simp only [List.mem_cons, not_or]
        exact ⟨by omega, hst⟩)]
      exact List.getElem?_append_left (by omega)
    case RightBracket =>
      cases st with
      | nil =>
        simp [compileSteps, compileStep, htk] at h
      | cons p0 st' =>
        simp only [compileSteps, compileStep, htk] at h
        simp only [List.mem_cons, not_or] at hst
        rw [ih (i + 1) _ _ _ _ h (by simp [hlen]) j (by omega) hst.2]
        rw [List.getElem?_append_left (by simp only [List.length_set]; omega)]
        exact List.getElem?_set_ne (fun hh => hst.1 hh.symm)
    all_goals
      have h1 : t.kind ≠ TokenKind.LeftBracket := by simp [htk]
      have h2 : t.kind ≠ TokenKind.RightBracket := by simp [htk]
      obtain ⟨X, hstep, -⟩ := compileStep_other i instrs st t h1 h2
      rw [show compileSteps (t :: B) i instrs st
          = compileSteps B (i + 1) (instrs ++ [X]) st by simp [compileSteps, hstep]] at h
      rw [ih (i + 1) _ _ _ _ h (by simp [hlen]) j (by omega) hst]
      exact List.getElem?_append_left (by omega)

/-- Every jump target produced by a successful compile-loop run is bounded
by the index reached at the end of the run, provided the incoming
instructions and stack entries are bounded by the starting index. -/
theorem compileSteps_targets (ts : List Token) :
    ∀ (i : Nat) (instrs : List Instruction) (st : List Nat)
      (instrs2 : List Instruction) (st2 : List Nat),
    compileSteps ts i instrs st = .ok (instrs2, st2) →
    targetsLE instrs i → (∀ p ∈ st, p < i) →
    targetsLE instrs2 (i + ts.length) := by
  induction ts with
  | nil =>
    intro i instrs st instrs2 st2 h htg _
    simp only [compileSteps, Except.ok.injEq, Prod.mk.injEq] at h
    rw [← h.1]
    intro ins hins t ht
    exact Nat.le_trans (htg ins hins t ht) (by omega)
  | cons tok ts ih =>
    intro i instrs st instrs2 st2 h htg hstk
    have hgoal : targetsLE instrs2 ((i + 1) + ts.length) → targetsLE instrs2 (i + (tok :: ts).length) := by
      intro hh ins hins t ht
      exact Nat.le_trans (hh ins hins t ht) (by simp only [List.length_cons]; omega)
    apply hgoal
    cases htk : tok.kind
    case LeftBracket =>
      simp only [compileSteps, compileStep, htk] at h
      apply ih (i + 1) _ _ _ _ h
      · intro ins hins t ht
        rcases List.mem_append.1 hins with hm | hm
        · exact Nat.le_trans (htg ins hm t ht) (by omega)
        · simp only [List.mem_singleton] at hm
          subst hm
          rcases ht with hh | hh
          · cases hh
            omega
          · cases hh
      · intro p hp
        rcases List.mem_cons.1 hp with hh | hh
        · omega
        · exact Nat.lt_trans (hstk p hh) (by omega)
    case RightBracket =>
      cases st with
      | nil =>
        simp [compileSteps, compileStep, htk] at h
      | cons p0 st' =>
        simp only [compileSteps, compileStep, htk] at h
        have hp0 : p0 < i := hstk p0 (List.mem_cons_self p0 st')
        apply ih (i + 1) _ _ _ _ h
        · intro ins hins t ht
          rcases List.mem_append.1 hins with hm | hm
          · rcases List.mem_or_eq_of_mem_set hm with hm2 | hm2
            · exact Nat.le_trans (htg ins hm2 t ht) (by omega)
            · subst hm2
              rcases ht with hh | hh
              · cases hh
                omega
              · cases hh
          · simp only [List.mem_singleton] at hm
            subst hm
            rcases ht with hh | hh
            · cases hh
            · cases hh
              omega
        · intro p hp
          exact Nat.lt_trans (hstk p (List.mem_cons_of_mem p0 hp)) (by omega)
    all_goals
      have h1 : tok.kind ≠ TokenKind.LeftBracket := by simp [htk]
      have h2 : tok.kind ≠ TokenKind.RightBracket := by simp [htk]
      obtain ⟨X, hstep, hX⟩ := compileStep_other i instrs st tok h1 h2
      rw [show compileSteps (tok :: ts) i instrs st
          = compileSteps ts (i + 1) (instrs ++ [X]) st by simp [compileSteps, hstep]] at h
      apply ih (i + 1) _ _ _ _ h
      · intro ins hins t ht
        rcases List.mem_append.1 hins with hm | hm
        · exact Nat.le_trans (htg ins hm t ht) (by omega)
        · simp only [List.mem_singleton] at hm
          subst hm
          rcases ht with hh | hh
          · exact absurd hh (hX t).1
          · exact absurd hh (hX t).2
      · intro p hp
        exact Nat.lt_trans (hstk p hp) (by omega)

/- ================= claim theorems ================= -/

/-- C8: scanning the source string `"+-[]<>.,"` yields exactly eight
tokens, kinds matching the characters in literal order, all on row 1 with
strictly increasing columns 1 through 8. -/
theorem scan_eight_symbols :
    tokenizeString "+-[]<>.," =
      [.ok { kind := TokenKind.Plus, row := 1, col := 1 },
       .ok { kind := TokenKind.Minus, row := 1, col := 2 },
       .ok { kind := TokenKind.LeftBracket, row := 1, col := 3 },
       .ok { kind := TokenKind.RightBracket, row := 1, col := 4 },
       .ok { kind := TokenKind.LeftBrace, row := 1, col := 5 },
       .ok { kind := TokenKind.RightBrace, row := 1, col := 6 },
       .ok { kind := TokenKind.Dot, row := 1, col := 7 },
       .ok { kind := TokenKind.Comma, row := 1, col := 8 }] := by
  decide

/-- C9: a `#` at any column of a line makes the scanner skip every
remaining character of that line — they produce no token and no error —
and scanning resumes at the start of the next line. -/
theorem hash_skips_rest_of_line (row : Nat) (pre rest : List Char) (ls : List (List Char)) :
    tokenize row ((pre ++ '#' :: rest) :: ls)
      = tokenizeLine (row + 1) 1 pre ++ tokenize (row + 1) ls := by
  simp [tokenize, tokenizeLine_hash]

/-- C2: code-bug evidence.  The claim (and the spec) require wrapping 8-bit
arithmetic, but `mem_inc`/`mem_dec` use `+= 1` / `-= 1` on a `u8`, which
under the default (debug) build profile panic at 255 + 1 and 0 − 1 instead
of wrapping; both the virtual machine and the interpreter environment share
the slip. -/
theorem cell_arith_overflow_panics :
    VM.mem_inc vm255 = .error "panic: attempt to add with overflow" ∧
    VM.mem_dec vmZero = .error "panic: attempt to subtract with overflow" ∧
    Interp.step itInc255 = .error "panic: attempt to add with overflow" ∧
    Interp.step itDec0 = .error "panic: attempt to subtract with overflow" :=
  ⟨rfl, rfl, rfl, rfl⟩

/-- C3 counterexample: executing the halt (`Exit`) instruction does not
leave the program counter at its current value — from program counter 0 it
moves to 1 — and the resulting status is `Idle` (no `Halted` status
exists). -/
theorem exit_counterexample :
    Interp.step itExit =
      .ok { program := [Instruction.Exit], env := { memory := [0], mp := 0, pc := 1 }
            status := Interp.InterpreterStatus.Idle } ∧
    (1 : Nat) ≠ 0 :=
  ⟨rfl, by decide⟩

/-- C3 (amended): executing the halt (`Exit`) instruction sets the status
to `Idle` — the same status as a freshly constructed machine; there is no
distinct `Halted` state — and advances the program counter by one, in both
the interpreter and the virtual machine. -/
theorem exit_sets_idle_and_advances_pc :
    (∀ it : Interp.Interpreter, it.status = Interp.InterpreterStatus.Running →
      it.program[it.env.pc]? = some Instruction.Exit →
      Interp.step it = .ok { it with status := Interp.InterpreterStatus.Idle
                                     env := { it.env with pc := it.env.pc + 1 } }) ∧
    (∀ vm : VM.VirtualMachine,
      VM.execute_instruction vm Instruction.Exit =
        .ok { vm with status := VM.Status.Idle, pc := vm.pc + 1 }) := by
  constructor
  · intro it h1 h2
    simp [Interp.step, h1, h2]
  · intro vm
    rfl

/-- C3 witness: the amended statement evaluated on concrete machines. -/
theorem exit_sets_idle_and_advances_pc_witness :
    Interp.step itExit = .ok { itExit with status := Interp.InterpreterStatus.Idle
                                           env := { itExit.env with pc := 1 } } ∧
    VM.execute_instruction vmZero Instruction.Exit =
      .ok { vmZero with status := VM.Status.Idle, pc := 1 } :=
  ⟨exit_sets_idle_and_advances_pc.1 itExit rfl rfl,
   exit_sets_idle_and_advances_pc.2 vmZero⟩

/-- C4 counterexample: executing write-output (and read-input) does advance
the program counter — from 0 it moves to 1 — contrary to the claim that it
is not advanced yet. -/
theorem io_advances_pc_counterexample :
    Interp.step itOutput =
      .ok { program := [Instruction.Output], env := { memory := [0], mp := 0, pc := 1 }
            status := Interp.InterpreterStatus.Waiting Interp.WaitReason.Output } ∧
    Interp.step itInput =
      .ok { program := [Instruction.Input], env := { memory := [0], mp := 0, pc := 1 }
            status := Interp.InterpreterStatus.Waiting Interp.WaitReason.Input } ∧
    (1 : Nat) ≠ 0 :=
  ⟨rfl, rfl, by decide⟩

/-- C4 (amended): write-output sets the status to `Waiting(Output)` and
read-input sets it to `Waiting(Input)`; both advance the program counter by
one immediately, and neither touches the tape — in particular the cell is
not mutated until the caller later supplies the byte. -/
theorem io_suspends_and_advances_pc :
    (∀ it : Interp.Interpreter, it.status = Interp.InterpreterStatus.Running →
      it.program[it.env.pc]? = some Instruction.Output →
      Interp.step it =
        .ok { it with status := Interp.InterpreterStatus.Waiting Interp.WaitReason.Output
                      env := { it.env with pc := it.env.pc + 1 } }) ∧
    (∀ it : Interp.Interpreter, it.status = Interp.InterpreterStatus.Running →
      it.program[it.env.pc]? = some Instruction.Input →
      Interp.step it =
        .ok { it with status := Interp.InterpreterStatus.Waiting Interp.WaitReason.Input
                      env := { it.env with pc := it.env.pc + 1 } }) := by
  constructor
  · intro it h1 h2
    simp [Interp.step, h1, h2]
  · intro it h1 h2
    simp [Interp.step, h1, h2]

/-- C4 witness: the amended statement evaluated on concrete machines. -/
theorem io_suspends_and_advances_pc_witness :
    Interp.step itOutput =
      .ok { itOutput with status := Interp.InterpreterStatus.Waiting Interp.WaitReason.Output
                          env := { itOutput.env with pc := 1 } } ∧
    Interp.step itInput =
      .ok { itInput with status := Interp.InterpreterStatus.Waiting Interp.WaitReason.Input
                         env := { itInput.env with pc := 1 } } :=
  ⟨io_suspends_and_advances_pc.1 itOutput rfl rfl,
   io_suspends_and_advances_pc.2 itInput rfl rfl⟩

/-- C5: `wakeup` transitions `Idle` to `Running` leaving all other state
unchanged, and on any other status fails with the invalid-transition error
while changing nothing. -/
theorem wakeup_idle_to_running (vm : VM.VirtualMachine) :
    (vm.status = VM.Status.Idle →
      VM.wakeup vm = ({ vm with status := VM.Status.Running }, .ok ())) ∧
    (vm.status ≠ VM.Status.Idle →
      VM.wakeup vm = (vm, .error "Virtual Machine status is not Idle")) := by
  constructor
  · intro h
    simp [VM.wakeup, h]
  · intro h
    cases hs : vm.status with
    | Idle => exact absurd hs h
    | Running => simp [VM.wakeup, hs]

/-- C5 witness: `wakeup` evaluated on an idle and on a running machine. -/
theorem wakeup_idle_to_running_witness :
    VM.wakeup vmIdle = ({ vmIdle with status := VM.Status.Running }, .ok ()) ∧
    VM.wakeup vmZero = (vmZero, .error "Virtual Machine status is not Idle") :=
  ⟨(wakeup_idle_to_running vmIdle).1 rfl,
   (wakeup_idle_to_running vmZero).2 (by decide)⟩

/-- C7: under `Saturate` with a one-cell tape, any number of forward moves
leaves the pointer at 0; under `Wrap` with a tape of length N, N forward
moves return the pointer to its starting value (here: the machine is
returned entirely unchanged). -/
theorem pointer_saturate_and_wrap (vm : VM.VirtualMachine) :
    (vm.settings.memory_overflow_behavior = VM.MemoryOverflowBehavior.Saturate →
      vm.memory.length = 1 → vm.mp = 0 →
      ∀ k, VM.inc_mp_iter k vm = .ok vm) ∧
    (vm.settings.memory_overflow_behavior = VM.MemoryOverflowBehavior.Wrap →
      vm.mp < vm.memory.length →
      VM.inc_mp_iter vm.memory.length vm = .ok vm) := by
  constructor
  · intro hb hl hmp k
    induction k with
    | zero => rfl
    | succ n ih =>
      simp only [VM.inc_mp_iter, inc_mp_saturate_one vm hb hl hmp]
      exact ih
  · intro hb h
    rw [inc_mp_iter_wrap vm.memory.length vm hb h]
    have : (vm.mp + vm.memory.length) % vm.memory.length = vm.mp := by
      rw [Nat.add_mod_right]
      exact Nat.mod_eq_of_lt h
    rw [this]

/-- C7 witness: five saturated moves on a one-cell tape, and three wrapped
moves on a three-cell tape. -/
theorem pointer_saturate_and_wrap_witness :
    VM.inc_mp_iter 5 vmSat = .ok vmSat ∧
    VM.inc_mp_iter 3 vmWrap = .ok vmWrap :=
  ⟨(pointer_saturate_and_wrap vmSat).1 rfl rfl rfl 5,
   (pointer_saturate_and_wrap vmWrap).2 rfl (by decide)⟩

/-- C10: when a read is serviced and the input source immediately reports
end-of-input, the cell under the pointer is set to 0; newline bytes (10)
delivered by the source are skipped and never stored, the cell receiving
the first non-newline byte instead. -/
theorem read_byte_eof_and_newlines (vm : VM.VirtualMachine)
    (hmp : vm.mp < vm.memory.length) :
    (vm.settings.input = [] →
      VM.read_byte vm true =
        .ok { vm with memory := vm.memory.set vm.mp 0
                      settings := { vm.settings with input := [] } }) ∧
    (∀ k b rest, vm.settings.input = List.replicate k 10 ++ b :: rest → b ≠ 10 →
      VM.read_byte vm true =
        .ok { vm with memory := vm.memory.set vm.mp b
                      settings := { vm.settings with input := rest } }) := by
  constructor
  · intro hin
    simp [VM.read_byte, hin, VM.skip_newlines, hmp]
  · intro k b rest hin hb
    cases k with
    | zero =>
      simp only [List.replicate, List.nil_append] at hin
      simp [VM.read_byte, hin, skip_newlines_not_nl b rest hb, hmp]
    | succ j =>
      rw [List.replicate_succ, List.cons_append] at hin
      simp [VM.read_byte, hin, skip_newlines_run j b rest hb, hmp]

/-- C10 witness: reading from an exhausted source stores 0; reading from a
source delivering two newlines then byte 65 stores 65 and leaves the rest
of the input. -/
theorem read_byte_eof_and_newlines_witness :
    VM.read_byte vmNoInput true =
      .ok { vmNoInput with memory := [0]
                           settings := { vmNoInput.settings with input := [] } } ∧
    VM.read_byte vmInput true =
      .ok { vmInput with memory := [65]
                         settings := { vmInput.settings with input := [66] } } :=
  ⟨(read_byte_eof_and_newlines vmNoInput (by decide)).1 rfl,
   (read_byte_eof_and_newlines vmInput (by decide)).2 2 65 [66] rfl (by decide)⟩

/-- C1: compiling any well-nested token sequence succeeds; each matched
bracket pair yields one `JZ` and one `JNZ` referencing each other exactly
(the `JZ` targets the index immediately after the `JNZ` of the closing bracket,
the `JNZ` targets the `JZ` index of the opening bracket); the program ends with
a trailing `Exit`; and every jump target is in range of the instruction
sequence. -/
theorem compile_wellnested_invariant (ts : List Token) (hbal : balancedFrom ts 0 = true) :
    ∃ p, compile ts = .ok p ∧
      p.length = ts.length + 1 ∧
      p[ts.length]? = some Instruction.Exit ∧
      (∀ o c, matchedPair ts o c →
        p[o]? = some (Instruction.JZ (c + 1)) ∧ p[c]? = some (Instruction.JNZ o)) ∧
      (∀ (j t : Nat), (p[j]? = some (Instruction.JZ t) ∨ p[j]? = some (Instruction.JNZ t)) →
        t < p.length) := by
  have hbal' : balancedFrom (ts ++ []) 0 = true := by simpa using hbal
  obtain ⟨iF, pF, hrunF, hlenF, hbalF, -, -⟩ :=
    compileSteps_balanced ts 0 [] hbal' [] [] 0 [] rfl rfl
  have hpF : pF = [] := List.length_eq_zero.1 (by simpa [balancedFrom] using hbalF)
  subst hpF
  simp only [List.append_nil, List.nil_append] at hrunF
  have hlen_iF : iF.length = ts.length := by simpa using hlenF
  have hcompile : compile ts = .ok (iF ++ [Instruction.Exit]) := by
    simp [compile, hrunF]
  refine ⟨iF ++ [Instruction.Exit], hcompile, ?_, ?_, ?_, ?_⟩
  · simp [hlen_iF]
  · rw [← hlen_iF]
    exact List.getElem?_concat_length iF _
  · rintro o c ⟨A, tl, S, tr, B, hdecomp, htl, htr, hA, hc, hS⟩
    subst hdecomp
    subst hA
    subst hc
    have hts_len : (A ++ tl :: (S ++ tr :: B)).length
        = A.length + 1 + S.length + 1 + B.length := by
      simp only [List.length_append, List.length_cons]
      omega
    -- run over the prefix A
    obtain ⟨iA, pA, hA1, hA2, -, hA4, -⟩ :=
      compileSteps_balanced A 0 (tl :: (S ++ tr :: B)) hbal [] [] 0 [] rfl rfl
    simp only [List.append_nil, List.nil_append] at hA1
    have hlen_iA : iA.length = A.length := by simpa using hA2
    have hpA_lt : ∀ p ∈ pA, p < A.length := by
      intro p hp
      rcases hA4 p hp with h | ⟨-, h⟩
      · simp at h
      · simpa using h
    -- run over the well-nested segment S, with the opening index pushed
    have hS' : balancedFrom (S ++ []) 0 = true := by simpa using hS
    obtain ⟨iS, pS, hS1, hS2, hSbal, -, -⟩ :=
      compileSteps_balanced S 0 [] hS' [] (A.length :: pA) (A.length + 1)
        (iA ++ [Instruction.JZ 0]) rfl (by simp [hlen_iA])
    have hpS : pS = [] := List.length_eq_zero.1 (by simpa [balancedFrom] using hSbal)
    subst hpS
    simp only [List.nil_append] at hS1
    have hlen_iS : iS.length = A.length + 1 + S.length := hS2
    -- chain the whole run down to the suffix B
    have hchain : compileSteps (A ++ tl :: (S ++ tr :: B)) 0 [] []
        = compileSteps B (A.length + 1 + S.length + 1)
            (iS.set A.length (Instruction.JZ (A.length + 1 + S.length + 1))
              ++ [Instruction.JNZ A.length]) pA := by
      rw [compileSteps_append_ok A (tl :: (S ++ tr :: B)) 0 [] [] iA pA hA1]
      simp only [Nat.zero_add]
      rw [show compileSteps (tl :: (S ++ tr :: B)) A.length iA pA
          = compileSteps (S ++ tr :: B) (A.length + 1) (iA ++ [Instruction.JZ 0])
              (A.length :: pA) by
        simp [compileSteps, compileStep, htl]]
      rw [compileSteps_append_ok S (tr :: B) (A.length + 1) (iA ++ [Instruction.JZ 0])
        (A.length :: pA) iS (A.length :: pA) hS1]
      rw [show compileSteps (tr :: B) (A.length + 1 + S.length) iS (A.length :: pA)
          = compileSteps B (A.length + 1 + S.length + 1)
              (iS.set A.length (Instruction.JZ (A.length + 1 + S.length + 1))
                ++ [Instruction.JNZ A.length]) pA by
        simp [compileSteps, compileStep, htr]]
    have hB : compileSteps B (A.length + 1 + S.length + 1)
        (iS.set A.length (Instruction.JZ (A.length + 1 + S.length + 1))
          ++ [Instruction.JNZ A.length]) pA = .ok (iF, []) := by
      rw [← hchain]
      exact hrunF
    have hlen_iC : (iS.set A.length (Instruction.JZ (A.length + 1 + S.length + 1))
        ++ [Instruction.JNZ A.length]).length = A.length + 1 + S.length + 1 := by
      simp only [List.length_append, List.length_set, List.length_cons, List.length_nil]
      omega
    have hno : A.length ∉ pA := fun h => absurd (hpA_lt _ h) (by omega)
    have hnc : (A.length + 1 + S.length) ∉ pA := fun h => absurd (hpA_lt _ h) (by omega)
    have huo : iF[A.length]?
        = (iS.set A.length (Instruction.JZ (A.length + 1 + S.length + 1))
            ++ [Instruction.JNZ A.length])[A.length]? :=
      compileSteps_untouched B _ _ pA iF [] hB hlen_iC A.length (by omega) hno
    have huc : iF[A.length + 1 + S.length]?
        = (iS.set A.length (Instruction.JZ (A.length + 1 + S.length + 1))
            ++ [Instruction.JNZ A.length])[A.length + 1 + S.length]? :=
      compileSteps_untouched B _ _ pA iF [] hB hlen_iC _ (by omega) hnc
    have hvo : (iS.set A.length (Instruction.JZ (A.length + 1 + S.length + 1))
        ++ [Instruction.JNZ A.length])[A.length]?
        = some (Instruction.JZ (A.length + 1 + S.length + 1)) := by
      rw [List.getElem?_append_left (by simp only [List.length_set]; omega)]
      have hlt : A.length < iS.length := by omega
      simp [List.getElem?_set_self, hlt]
    have hvc := List.getElem?_concat_length
      (iS.set A.length (Instruction.JZ (A.length + 1 + S.length + 1)))
      (Instruction.JNZ A.length)
    rw [show (iS.set A.length (Instruction.JZ (A.length + 1 + S.length + 1))).length
        = A.length + 1 + S.length from by simp only [List.length_set]; omega] at hvc
    have hiFlen : iF.length = A.length + 1 + S.length + 1 + B.length := by
      rw [hlen_iF, hts_len]
    constructor
    · rw [List.getElem?_append_left (by omega : A.length < iF.length), huo]
      exact hvo
    · rw [List.getElem?_append_left (by omega : A.length + 1 + S.length < iF.length), huc]
      exact hvc
  · have htargets : targetsLE iF (0 + ts.length) :=
      compileSteps_targets ts 0 [] [] iF [] hrunF
        (by intro ins hins; simp at hins) (by intro p hp; simp at hp)
    intro j t hjt
    have hle : t ≤ ts.length := by
      rcases hjt with h | h
      · have hm := List.getElem?_mem h
        rcases List.mem_append.1 hm with hm2 | hm2
        · have := htargets _ hm2 t (Or.inl rfl)
          omega
        · simp at hm2
      · have hm := List.getElem?_mem h
        rcases List.mem_append.1 hm with hm2 | hm2
        · have := htargets _ hm2 t (Or.inr rfl)
          omega
        · simp at hm2
    simp only [List.length_append, List.length_cons, List.length_nil]
    omega

/-- C1 witness: the invariant evaluated on the concrete token sequence
`[` `]`. -/
theorem compile_wellnested_invariant_witness :
    ∃ p, compile tsPair = .ok p ∧
      p.length = tsPair.length + 1 ∧
      p[tsPair.length]? = some Instruction.Exit ∧
      (∀ o c, matchedPair tsPair o c →
        p[o]? = some (Instruction.JZ (c + 1)) ∧ p[c]? = some (Instruction.JNZ o)) ∧
      (∀ (j t : Nat), (p[j]? = some (Instruction.JZ t) ∨ p[j]? = some (Instruction.JNZ t)) →
        t < p.length) :=
  compile_wellnested_invariant tsPair (by decide)

/-- C6 counterexample: the compile errors carry no position information —
an unmatched `]` (resp. a pending `[`) at entirely different rows and
columns produces the very same error value, a fixed string. -/
theorem compile_error_positionless :
    compile [{ kind := TokenKind.RightBracket, row := 1, col := 1 }]
      = compile [{ kind := TokenKind.RightBracket, row := 9, col := 42 }] ∧
    compile [{ kind := TokenKind.RightBracket, row := 1, col := 1 }]
      = .error "No matching \x27[\x27" ∧
    compile [{ kind := TokenKind.LeftBracket, row := 1, col := 1 }]
      = compile [{ kind := TokenKind.LeftBracket, row := 7, col := 33 }] ∧
    compile [{ kind := TokenKind.LeftBracket, row := 1, col := 1 }]
      = .error "Unmatched \x27[\x27" :=
  ⟨rfl, rfl, rfl, rfl⟩

/-- C6 (amended): compile fails with the fixed error string
the no-matching-open-bracket message when a `]` token is reached with the pending-open-bracket
stack empty, and with the fixed error string the unmatched-open-bracket message when the token
stream ends with brackets still pending; no partial program is produced on
either failure (the result is an error value); but the errors are constant
strings and carry no position information. -/
theorem compile_unmatched_errors :
    (∀ (A B : List Token) (tr : Token) (iA : List Instruction),
      tr.kind = TokenKind.RightBracket →
      compileSteps A 0 [] [] = .ok (iA, []) →
      compile (A ++ tr :: B) = .error "No matching \x27[\x27") ∧
    (∀ (ts : List Token) (iX : List Instruction) (sX : List Nat),
      compileSteps ts 0 [] [] = .ok (iX, sX) → sX ≠ [] →
      compile ts = .error "Unmatched \x27[\x27") := by
  constructor
  · intro A B tr iA htr hA
    unfold compile
    rw [compileSteps_append_ok A (tr :: B) 0 [] [] iA [] hA]
    simp [compileSteps, compileStep, htr]
  · intro ts iX sX h hne
    unfold compile
    rw [h]
    cases sX with
    | nil => exact absurd rfl hne
    | cons p0 s => simp

/-- C6 witness: the amended statement evaluated on the one-token streams
`]` and `[`. -/
theorem compile_unmatched_errors_witness :
    compile ([] ++ { kind := TokenKind.RightBracket, row := 1, col := 1 } :: [])
      = .error "No matching \x27[\x27" ∧
    compile [{ kind := TokenKind.LeftBracket, row := 1, col := 1 }]
      = .error "Unmatched \x27[\x27" :=
  ⟨compile_unmatched_errors.1 [] [] { kind := TokenKind.RightBracket, row := 1, col := 1 } [] rfl rfl,
   compile_unmatched_errors.2 [{ kind := TokenKind.LeftBracket, row := 1, col := 1 }]
     [Instruction.JZ 0] [0] rfl (by decide)⟩

end Bfint
